import Mathlib

/-!
# Policy-monitoring event store (`src/wazuh_db/wdb_pm.c`)

A shallow embedding of the rootcheck event store of the Wazuh database
module, and theorems about it.

Conventions of the embedding:

* A C string is the list of characters held by its buffer; the string
  functions stop at the first NUL, as their C counterparts do.
* A `char *` result that may be `NULL` is an `Option`.
* Machine integers are mathematical integers; where the C code narrows a
  value (`long` or `sqlite3_int64` to `int`) the narrowing is written
  explicitly with `toInt32`. The data model is LP64: `int` is 32 bits wide,
  `long` and `sqlite3_int64` are 64 bits wide.
-/

namespace WdbPm

/-! ## C strings -/

/-- The terminating character of a C string. -/
def NUL : Char := Char.ofNat 0

/-- The closing brace, the only member of the reject set given to `strcspn`. -/
def RBRACE : Char := Char.ofNat 125

/-- C `strlen`: number of characters before the first NUL. -/
def strlen : List Char → Nat
  | [] => 0
  | c :: s => if c = NUL then 0 else strlen s + 1

/-- Whether the C string at `s` starts with the characters of `needle`
(the inner comparison loop of `strstr`). -/
def starts_with : List Char → List Char → Bool
  | _, [] => true
  | [], _ :: _ => false
  | c :: s, n :: needle => if c = NUL then false else if c = n then starts_with s needle else false

/-- C `strstr`: the tail of `haystack` that begins at the first occurrence of
`needle`, or `none` (NULL) when `needle` does not occur before the
terminator. -/
def strstr : List Char → List Char → Option (List Char)
  | [], needle => if starts_with [] needle then some [] else none
  | c :: s, needle =>
    if starts_with (c :: s) needle then some (c :: s)
    else if c = NUL then none
    else strstr s needle

/-- C `strcspn`: length of the initial segment of `s` that holds no character
of `reject`. -/
def strcspn : List Char → List Char → Nat
  | [], _ => 0
  | c :: s, reject => if c = NUL then 0 else if c ∈ reject then 0 else strcspn s reject + 1

/-- Contents of the string produced by `out = strdup(out); out[length] = 0`:
the characters of the C string at `out`, cut at index `length`. -/
def strdup_cut (out : List Char) (length : Nat) : List Char :=
  ((out.take (strlen out)).take length)

/-- The marker `{PCI_DSS: ` searched by `get_pci_dss`. -/
def PCI_DSS_MARKER : List Char :=
  [Char.ofNat 123, 'P', 'C', 'I', '_', 'D', 'S', 'S', ':', ' ']

/-- The marker `{CIS: ` searched by `get_cis`. -/
def CIS_MARKER : List Char :=
  [Char.ofNat 123, 'C', 'I', 'S', ':', ' ']

/-- Source function `get_pci_dss` (lines 215-231). -/
def get_pci_dss (string : List Char) : Option (List Char) :=
  match strstr string PCI_DSS_MARKER with
  | some out =>
    let out := out.drop 10
    let length := strcspn out [RBRACE]
    if length < strlen out then some (strdup_cut out length) else none
  | none => none

/-- Source function `get_cis` (lines 233-249). -/
def get_cis (string : List Char) : Option (List Char) :=
  match strstr string CIS_MARKER with
  | some out =>
    let out := out.drop 6
    let length := strcspn out [RBRACE]
    if length < strlen out then some (strdup_cut out length) else none
  | none => none

/-- The part of the two extractors after the marker search. -/
def cut_at_brace (out : List Char) : Option (List Char) :=
  if strcspn out [RBRACE] < strlen out then some (strdup_cut out (strcspn out [RBRACE])) else none

/-! ## Reference extractor, written from the specification -/

/-- The text after the first occurrence of `marker` in `log`, when `marker`
occurs in `log`. -/
def after_first (marker : List Char) : List Char → Option (List Char)
  | [] => if marker = [] then some [] else none
  | c :: s =>
    if marker <+: c :: s then some ((c :: s).drop marker.length)
    else after_first marker s

/-- Whether a character differs from the closing brace. -/
def not_rbrace (c : Char) : Bool := decide (c ≠ RBRACE)

/-- Reference extractor of section 4.1 of the specification: absent when the
marker does not occur; otherwise, with `rest` the text after the first
occurrence of the marker, absent when `rest` holds no closing brace and the
part of `rest` before its first closing brace when it does. -/
def extract_ref (marker log : List Char) : Option (List Char) :=
  match after_first marker log with
  | none => none
  | some rest => if RBRACE ∈ rest then some (rest.takeWhile not_rbrace) else none

/-! ## Integers and result codes -/

/-- Conversion of an integer to the 32-bit C `int`, as performed when a
`long` or a `sqlite3_int64` is passed or cast to `int` (two's complement
wrap-around). -/
def toInt32 (v : Int) : Int := (v + 2147483648) % 4294967296 - 2147483648

/-- Least value of the C `int`. -/
def INT_MIN : Int := -2147483648

/-- Greatest value of the C `int`. -/
def INT_MAX : Int := 2147483647

/-- Least value of the C `long` (LP64) and of `sqlite3_int64`. -/
def LONG_MIN : Int := -9223372036854775808

/-- Greatest value of the C `long` (LP64) and of `sqlite3_int64`. -/
def LONG_MAX : Int := 9223372036854775807

/-- Result code `SQLITE_ROW` of `sqlite3.h`. -/
def SQLITE_ROW : Int := 100

/-- Result code `SQLITE_DONE` of `sqlite3.h`. -/
def SQLITE_DONE : Int := 101

/-- The text bound by `sqlite3_bind_text(stmt, i, s, -1, NULL)` for a non-NULL
pointer `s`: the characters of `s` up to its terminator. -/
def c_str (s : List Char) : List Char := s.take (strlen s)

/-! ## Data model -/

/-- A row of the table `pm_event`. The two date columns hold the epoch value
bound to the statement; the rendering `datetime(?, unixepoch, localtime)` done
by the engine is not modelled. -/
structure Row where
  rowid : Int
  date_first : Int
  date_last : Int
  log : List Char
  pci_dss : Option (List Char)
  cis : Option (List Char)
deriving DecidableEq, Repr

/-- State of a database connection (`sqlite3 *`): the content of `pm_event`
and the two counters the file reads back from the engine. -/
structure sqlite3 where
  pm_event : List Row
  changes : Int
  last_insert_rowid : Int
deriving DecidableEq, Repr

/-- The event record passed to the legacy calls (`rk_event_t`, declared in a
header outside this file): two integer timestamps and the log text. -/
structure rk_event_t where
  date_first : Int
  date_last : Int
  log : List Char
deriving DecidableEq, Repr

/-- The session handle (`wdb_t`): the connection and the transaction flag.
The statement cache `stmt[]` is owned by the collaborator `wdb_stmt_cache`. -/
structure wdb_t where
  db : sqlite3
  transaction : Bool
deriving DecidableEq, Repr

/-- The SQL texts prepared by the legacy calls. -/
inductive Sql where
  | SQL_INSERT_PM
  | SQL_UPDATE_PM
  | SQL_DELETE_PM
deriving DecidableEq, Repr

/-- The statement-cache indices used by the session calls. -/
inductive StmtIndex where
  | WDB_STMT_PM_FIND
  | WDB_STMT_PM_INSERT
  | WDB_STMT_PM_UPDATE
deriving DecidableEq, Repr

/-- A statement with all its parameters bound, ready to be stepped. -/
inductive Stmt where
  | insert_pm (p1 p2 : Int) (p3 : List Char) (p4 p5 : Option (List Char))
  | update_pm (p1 : Int) (p2 : List Char)
  | delete_pm
  | find_pm (p1 : List Char)
deriving DecidableEq, Repr

/-- Calls made to collaborators (engine, handle layer, agent directory,
logging). `wdb_commit` and `wdb_rollback` stand for the commit and rollback
entry points of the handle layer. -/
inductive Call where
  | wdb_prepare (sql : Sql)
  | wdb_begin2
  | wdb_commit
  | wdb_rollback
  | wdb_stmt_cache (index : StmtIndex)
  | sqlite3_bind_int (i : Nat) (v : Int)
  | sqlite3_bind_text (i : Nat) (v : Option (List Char))
  | wdb_step
  | sqlite3_step
  | sqlite3_last_insert_rowid
  | sqlite3_changes
  | sqlite3_finalize
  | sqlite3_errmsg
  | mdebug1
  | merror
  | wdb_agent_name (id : Int)
  | wdb_open_agent (id : Int) (name : List Char)
  | wdb_vacuum
  | sqlite3_close_v2
  | wdb_get_all_agents
deriving DecidableEq, Repr

/-- Answers of the collaborators during one call: the return values of
`wdb_prepare`, `wdb_begin2` and `wdb_stmt_cache`, the value `wdb_begin2`
leaves in the transaction flag of the handle, the result code of the step,
and the row identifier the engine gives to a row it inserts (the schema of
`pm_event`, which fixes how identifiers are chosen, is outside this file). -/
structure Env where
  prepare_rc : Int
  begin2_rc : Int
  begin2_flag : Bool
  stmt_cache_rc : Int
  step_rc : Int
  rowid : Int
deriving DecidableEq, Repr

/-- Result of a call: returned value, state left behind, collaborator calls
made, in order. -/
structure Outcome (σ : Type) where
  result : Int
  state : σ
  calls : List Call

/-! ## The engine, as far as the three SQL texts need it -/

/-- Effect of a completed statement on the connection.
`SQL_INSERT_PM` adds one row, under the identifier `rowid` chosen by the
engine; `SQL_UPDATE_PM` sets `date_last` where `log = ?`; `SQL_DELETE_PM`
empties the table; the find query changes nothing. -/
def exec (rowid : Int) (stmt : Stmt) (db : sqlite3) : sqlite3 :=
  match stmt with
  | .insert_pm p1 p2 p3 p4 p5 =>
    { pm_event := db.pm_event ++ [⟨rowid, p1, p2, p3, p4, p5⟩],
      changes := 1,
      last_insert_rowid := rowid }
  | .update_pm p1 p2 =>
    { pm_event := db.pm_event.map (fun r => if r.log = p2 then { r with date_last := p1 } else r),
      changes := ((db.pm_event.filter (fun r => r.log = p2)).length : Nat),
      last_insert_rowid := db.last_insert_rowid }
  | .delete_pm =>
    { pm_event := [],
      changes := (db.pm_event.length : Nat),
      last_insert_rowid := db.last_insert_rowid }
  | .find_pm _ => db

/-- One step of a statement (`sqlite3_step`, or its wrapper `wdb_step`): the
engine answers `env.step_rc`; the statement takes effect when it completes. -/
def sqlite3_step (env : Env) (stmt : Stmt) (db : sqlite3) : Int × sqlite3 :=
  (env.step_rc, if env.step_rc = SQLITE_DONE then exec env.rowid stmt db else db)

/-- The collaborator `wdb_begin2`, defined outside this file: it answers
`env.begin2_rc` (negative on failure) and leaves `env.begin2_flag` in the
transaction flag of the handle. -/
def wdb_begin2 (env : Env) (wdb : wdb_t) : Int × wdb_t :=
  (env.begin2_rc, { wdb with transaction := env.begin2_flag })

/-! ## Legacy per-call API -/

/-- Source function `wdb_insert_pm` (lines 24-50). -/
def wdb_insert_pm (env : Env) (db : sqlite3) (event : rk_event_t) : Outcome sqlite3 :=
  if env.prepare_rc ≠ 0 then
    ⟨-1, db, [.wdb_prepare .SQL_INSERT_PM, .sqlite3_errmsg, .mdebug1]⟩
  else
    let pci_dss := get_pci_dss event.log
    let cis := get_cis event.log
    let p1 := toInt32 event.date_first
    let p2 := toInt32 event.date_last
    let p3 := c_str event.log
    let st := sqlite3_step env (.insert_pm p1 p2 p3 pci_dss cis) db
    let binds : List Call :=
      [.wdb_prepare .SQL_INSERT_PM, .sqlite3_bind_int 1 p1, .sqlite3_bind_int 2 p2,
       .sqlite3_bind_text 3 (some p3), .sqlite3_bind_text 4 pci_dss,
       .sqlite3_bind_text 5 cis, .wdb_step]
    if st.1 = SQLITE_DONE then
      ⟨toInt32 st.2.last_insert_rowid, st.2,
        binds ++ [.sqlite3_last_insert_rowid, .sqlite3_finalize]⟩
    else
      ⟨-1, st.2, binds ++ [.sqlite3_finalize]⟩

/-- Source function `wdb_update_pm` (lines 52-68). -/
def wdb_update_pm (env : Env) (db : sqlite3) (event : rk_event_t) : Outcome sqlite3 :=
  if env.prepare_rc ≠ 0 then
    ⟨-1, db, [.wdb_prepare .SQL_UPDATE_PM, .sqlite3_errmsg, .mdebug1]⟩
  else
    let p1 := toInt32 event.date_last
    let p2 := c_str event.log
    let st := sqlite3_step env (.update_pm p1 p2) db
    let binds : List Call :=
      [.wdb_prepare .SQL_UPDATE_PM, .sqlite3_bind_int 1 p1, .sqlite3_bind_text 2 (some p2),
       .wdb_step]
    if st.1 = SQLITE_DONE then
      ⟨st.2.changes, st.2, binds ++ [.sqlite3_changes, .sqlite3_finalize]⟩
    else
      ⟨-1, st.2, binds ++ [.sqlite3_finalize]⟩

/-- The agent directory and the per-agent stores: `name id` is the answer of
`wdb_agent_name(id)` (NULL when the agent is unknown), `store id` the
connection `wdb_open_agent` opens for the agent (NULL when it cannot be
opened). -/
structure Agents where
  name : Int → Option (List Char)
  store : Int → Option sqlite3

/-- The directory after the store of agent `id` has been left in state `db`. -/
def Agents.put (ag : Agents) (id : Int) (db : sqlite3) : Agents :=
  { ag with store := fun j => if j = id then some db else ag.store j }

/-- Source function `wdb_delete_pm` (lines 70-97). -/
def wdb_delete_pm (env : Env) (ag : Agents) (id : Int) : Outcome Agents :=
  let name := if id ≠ 0 then ag.name id else some "localhost".toList
  let c0 : List Call := if id ≠ 0 then [.wdb_agent_name id] else []
  match name with
  | none => ⟨-1, ag, c0⟩
  | some name =>
    match ag.store id with
    | none => ⟨-1, ag, c0 ++ [.wdb_open_agent id name]⟩
    | some db =>
      if env.prepare_rc ≠ 0 then
        ⟨-1, ag, c0 ++ [.wdb_open_agent id name, .wdb_prepare .SQL_DELETE_PM,
          .sqlite3_errmsg, .mdebug1, .sqlite3_close_v2]⟩
      else
        let st := sqlite3_step env .delete_pm db
        let c1 : List Call :=
          c0 ++ [.wdb_open_agent id name, .wdb_prepare .SQL_DELETE_PM, .wdb_step]
        if st.1 = SQLITE_DONE then
          ⟨st.2.changes, ag.put id st.2,
            c1 ++ [.sqlite3_changes, .sqlite3_finalize, .wdb_vacuum, .sqlite3_close_v2]⟩
        else
          ⟨-1, ag.put id st.2, c1 ++ [.sqlite3_finalize, .wdb_vacuum, .sqlite3_close_v2]⟩

/-- The loop `for (i = 0; agents[i] >= 0; i++) wdb_delete_pm(agents[i]);` over
the array `agents`, with `wdb_delete_pm` as a callee acting on a state `σ`.
Its result is discarded. The array is read up to its first negative entry. -/
def wdb_delete_pm_loop {σ : Type} (wdb_delete_pm : Int → σ → Int × σ) :
    List Int → σ → σ
  | [], s => s
  | a :: agents, s =>
    if a ≥ 0 then wdb_delete_pm_loop wdb_delete_pm agents (wdb_delete_pm a s).2 else s

/-- Source function `wdb_delete_pm_all` (lines 99-112). `agents` is the answer of
`wdb_get_all_agents()`: NULL, or an array of identifiers. -/
def wdb_delete_pm_all {σ : Type} (wdb_delete_pm : Int → σ → Int × σ)
    (agents : Option (List Int)) (s : σ) : σ :=
  match agents with
  | some agents => wdb_delete_pm_loop wdb_delete_pm agents (wdb_delete_pm 0 s).2
  | none => s

/-! ## Session-based API -/

/-- Source function `wdb_rootcheck_find` (lines 114-144). -/
def wdb_rootcheck_find (env : Env) (wdb : wdb_t) (log : List Char) : Outcome wdb_t :=
  let b := if !wdb.transaction then wdb_begin2 env wdb else (0, wdb)
  let c0 : List Call := if !wdb.transaction then [.wdb_begin2] else []
  if !wdb.transaction && b.1 < 0 then
    ⟨-1, b.2, c0 ++ [.mdebug1]⟩
  else if env.stmt_cache_rc < 0 then
    ⟨-1, b.2, c0 ++ [.wdb_stmt_cache .WDB_STMT_PM_FIND, .mdebug1]⟩
  else
    let p1 := c_str log
    let c1 : List Call :=
      c0 ++ [.wdb_stmt_cache .WDB_STMT_PM_FIND, .sqlite3_bind_text 1 (some p1), .sqlite3_step]
    let st := sqlite3_step env (.find_pm p1) b.2.db
    if st.1 = SQLITE_ROW then ⟨1, { b.2 with db := st.2 }, c1⟩
    else if st.1 = SQLITE_DONE then ⟨0, { b.2 with db := st.2 }, c1⟩
    else ⟨-1, { b.2 with db := st.2 }, c1 ++ [.sqlite3_errmsg, .merror]⟩

/-- Source function `wdb_rootcheck_save` (lines 146-185). -/
def wdb_rootcheck_save (env : Env) (wdb : wdb_t) (date_last : Int) (log : List Char) :
    Outcome wdb_t :=
  let b := if !wdb.transaction then wdb_begin2 env wdb else (0, wdb)
  let c0 : List Call := if !wdb.transaction then [.wdb_begin2] else []
  if !wdb.transaction && b.1 < 0 then
    ⟨-1, b.2, c0 ++ [.mdebug1]⟩
  else if env.stmt_cache_rc < 0 then
    ⟨-1, b.2, c0 ++ [.wdb_stmt_cache .WDB_STMT_PM_INSERT, .mdebug1]⟩
  else
    let pci_dss := get_pci_dss log
    let cis := get_cis log
    let p1 := toInt32 date_last
    let p2 := toInt32 date_last
    let p3 := c_str log
    let c1 : List Call :=
      c0 ++ [.wdb_stmt_cache .WDB_STMT_PM_INSERT, .sqlite3_bind_int 1 p1,
        .sqlite3_bind_int 2 p2, .sqlite3_bind_text 3 (some p3), .sqlite3_bind_text 4 pci_dss,
        .sqlite3_bind_text 5 cis, .sqlite3_step]
    let st := sqlite3_step env (.insert_pm p1 p2 p3 pci_dss cis) b.2.db
    if st.1 = SQLITE_DONE then ⟨0, { b.2 with db := st.2 }, c1⟩
    else ⟨-1, { b.2 with db := st.2 }, c1 ++ [.sqlite3_errmsg, .merror]⟩

/-- Source function `wdb_rootcheck_update` (lines 187-213). -/
def wdb_rootcheck_update (env : Env) (wdb : wdb_t) (date_last : Int) (log : List Char) :
    Outcome wdb_t :=
  let b := if !wdb.transaction then wdb_begin2 env wdb else (0, wdb)
  let c0 : List Call := if !wdb.transaction then [.wdb_begin2] else []
  if !wdb.transaction && b.1 < 0 then
    ⟨-1, b.2, c0 ++ [.mdebug1]⟩
  else if env.stmt_cache_rc < 0 then
    ⟨-1, b.2, c0 ++ [.wdb_stmt_cache .WDB_STMT_PM_UPDATE, .mdebug1]⟩
  else
    let p1 := toInt32 date_last
    let p2 := c_str log
    let c1 : List Call :=
      c0 ++ [.wdb_stmt_cache .WDB_STMT_PM_UPDATE, .sqlite3_bind_int 1 p1,
        .sqlite3_bind_text 2 (some p2), .sqlite3_step]
    let st := sqlite3_step env (.update_pm p1 p2) b.2.db
    if st.1 = SQLITE_DONE then
      ⟨st.2.changes, { b.2 with db := st.2 }, c1 ++ [.sqlite3_changes]⟩
    else ⟨-1, { b.2 with db := st.2 }, c1 ++ [.sqlite3_errmsg, .merror]⟩

/-! ## Vocabulary of the claims -/

/-- Whether a timestamp fits the C `int`. -/
def in_int_range (v : Int) : Prop := INT_MIN ≤ v ∧ v ≤ INT_MAX

instance (v : Int) : Decidable (in_int_range v) := by
  unfold in_int_range; infer_instance

/-- Whether a value fits the C `long` (and `sqlite3_int64`). -/
def in_long_range (v : Int) : Prop := LONG_MIN ≤ v ∧ v ≤ LONG_MAX

instance (v : Int) : Decidable (in_long_range v) := by
  unfold in_long_range; infer_instance

/-- Whether a session call gets past its transaction check: a transaction is
active on the handle, or `wdb_begin2` does not fail. -/
def begun (env : Env) (wdb : wdb_t) : Prop := wdb.transaction = true ∨ 0 ≤ env.begin2_rc

instance (env : Env) (wdb : wdb_t) : Decidable (begun env wdb) := by
  unfold begun; infer_instance

/-- Relation between a matching or non-matching row `r` and the row `r2` that
stands in its place after an update of `date_last` on the rows whose log is
`log`: only `date_last` of a matching row may differ, and it is then `d`. -/
def updated_row (d : Int) (log : List Char) (r r2 : Row) : Prop :=
  r2.rowid = r.rowid ∧ r2.date_first = r.date_first ∧ r2.log = r.log ∧
  r2.pci_dss = r.pci_dss ∧ r2.cis = r.cis ∧
  (r.log = log → r2.date_last = d) ∧ (r.log ≠ log → r2.date_last = r.date_last)

/-- The invariant `date_first <= date_last` on every row of a store. -/
def dates_ordered (db : sqlite3) : Prop := ∀ r ∈ db.pm_event, r.date_first ≤ r.date_last

instance (db : sqlite3) : Decidable (dates_ordered db) := by
  unfold dates_ordered; infer_instance

/-- An operation of the event store on the store of one agent. -/
inductive Op where
  | insert_pm (event : rk_event_t)
  | update_pm (event : rk_event_t)
  | rootcheck_save (date_last : Int) (log : List Char)
  | rootcheck_update (date_last : Int) (log : List Char)
  | delete_pm
deriving DecidableEq, Repr

/-- The operation `op` run on the store of agent `id`, held by the session
handle `w`: the legacy calls receive the connection, `wdb_delete_pm` opens the
store through the directory `ag`. -/
def apply_op (env : Env) (ag : Agents) (id : Int) (w : wdb_t) : Op → Outcome wdb_t
  | .insert_pm event =>
    let o := wdb_insert_pm env w.db event
    ⟨o.result, { w with db := o.state }, o.calls⟩
  | .update_pm event =>
    let o := wdb_update_pm env w.db event
    ⟨o.result, { w with db := o.state }, o.calls⟩
  | .rootcheck_save date_last log => wdb_rootcheck_save env w date_last log
  | .rootcheck_update date_last log => wdb_rootcheck_update env w date_last log
  | .delete_pm =>
    let o := wdb_delete_pm env (ag.put id w.db) id
    ⟨o.result, { w with db := (o.state.store id).getD w.db }, o.calls⟩

/-- The handle after a sequence of operations, each with its own collaborator
answers. -/
def run_ops (ag : Agents) (id : Int) : List (Env × Op) → wdb_t → wdb_t
  | [], w => w
  | (env, op) :: ops, w => run_ops ag id ops (apply_op env ag id w op).state

/-- Every operation of the sequence succeeds (does not return -1). -/
def all_succeed (ag : Agents) (id : Int) : List (Env × Op) → wdb_t → Prop
  | [], _ => True
  | (env, op) :: ops, w =>
    (apply_op env ag id w op).result ≠ -1 ∧ all_succeed ag id ops (apply_op env ag id w op).state

/-- Side condition under which one operation keeps the dates ordered: an
inserted event has ordered timestamps, an update does not set `date_last`
before the `date_first` of a row it matches; timestamps given to these two
fit the C `int`. Saving and deleting need no condition. -/
def keeps_order (w : wdb_t) : Op → Prop
  | .insert_pm event =>
    in_int_range event.date_first ∧ in_int_range event.date_last ∧
    event.date_first ≤ event.date_last
  | .update_pm event =>
    in_int_range event.date_last ∧
    ∀ r ∈ w.db.pm_event, r.log = c_str event.log → r.date_first ≤ event.date_last
  | .rootcheck_save _ _ => True
  | .rootcheck_update date_last log =>
    in_int_range date_last ∧
    ∀ r ∈ w.db.pm_event, r.log = c_str log → r.date_first ≤ date_last
  | .delete_pm => True

/-- Every operation of the sequence meets `keeps_order` in the state it runs in. -/
def all_keep_order (ag : Agents) (id : Int) : List (Env × Op) → wdb_t → Prop
  | [], _ => True
  | (env, op) :: ops, w =>
    keeps_order w op ∧ all_keep_order ag id ops (apply_op env ag id w op).state

instance (w : wdb_t) (op : Op) : Decidable (keeps_order w op) := by
  cases op <;> unfold keeps_order <;> infer_instance

/-- Decision procedure of `all_succeed`. -/
def all_succeed_dec (ag : Agents) (id : Int) :
    (ops : List (Env × Op)) → (w : wdb_t) → Decidable (all_succeed ag id ops w)
  | [], _ => isTrue trivial
  | (env, op) :: ops, w =>
    match all_succeed_dec ag id ops (apply_op env ag id w op).state with
    | isTrue h =>
      if h1 : (apply_op env ag id w op).result ≠ -1 then isTrue ⟨h1, h⟩
      else isFalse (fun hh => h1 hh.1)
    | isFalse h => isFalse (fun hh => h hh.2)

instance (ag : Agents) (id : Int) (ops : List (Env × Op)) (w : wdb_t) :
    Decidable (all_succeed ag id ops w) := all_succeed_dec ag id ops w

/-- Decision procedure of `all_keep_order`. -/
def all_keep_order_dec (ag : Agents) (id : Int) :
    (ops : List (Env × Op)) → (w : wdb_t) → Decidable (all_keep_order ag id ops w)
  | [], _ => isTrue trivial
  | (env, op) :: ops, w =>
    match all_keep_order_dec ag id ops (apply_op env ag id w op).state with
    | isTrue h =>
      if h1 : keeps_order w op then isTrue ⟨h1, h⟩
      else isFalse (fun hh => h1 hh.1)
    | isFalse h => isFalse (fun hh => h hh.2)

instance (ag : Agents) (id : Int) (ops : List (Env × Op)) (w : wdb_t) :
    Decidable (all_keep_order ag id ops w) := all_keep_order_dec ag id ops w

/-- Transaction discipline of one session call that started on handle `wdb`
and ended with outcome `out`: `wdb_begin2` is called once when the flag is
unset and never when it is set; when that begin fails the call returns -1
having called nothing but the begin and the debug log, and leaves the
connection as it was; the call never commits or rolls back; the call itself
never writes the transaction flag: a flag that was set on entry is still
set, and a flag that was unset holds on return exactly what `wdb_begin2`
left in it. -/
def discipline (env : Env) (wdb : wdb_t) (out : Outcome wdb_t) : Prop :=
  out.calls.count .wdb_begin2 = (if wdb.transaction then 0 else 1) ∧
  (wdb.transaction = false → env.begin2_rc < 0 →
    out.result = -1 ∧ out.calls = [.wdb_begin2, .mdebug1] ∧ out.state.db = wdb.db) ∧
  Call.wdb_commit ∉ out.calls ∧ Call.wdb_rollback ∉ out.calls ∧
  out.state.transaction = (if wdb.transaction then true else env.begin2_flag)

/-- The callee `wdb_delete_pm` of the sweep, acting on the agent directory with
the collaborator answers `env` at every call. -/
def delete_callee (env : Env) (id : Int) (ag : Agents) : Int × Agents :=
  ((wdb_delete_pm env ag id).result, (wdb_delete_pm env ag id).state)

/-- A callee for `wdb_delete_pm_all` that records the identifier of every call
and answers `res history id`. -/
def recorder (res : List Int → Int → Int) (id : Int) (history : List Int) : Int × List Int :=
  (res history id, history ++ [id])

/-! ## Lemmas on the C string functions -/

theorem starts_with_iff (needle : List Char) (hn : NUL ∉ needle) (s : List Char) :
    starts_with s needle = true ↔ needle <+: s := by
  induction needle generalizing s with
  | nil => cases s <;> simp [starts_with]
  | cons n needle ih =>
    cases s with
    | nil => simp [starts_with]
    | cons c s =>
      have hn1 : n ≠ NUL := fun h => hn (by simp [h])
      have hn2 : NUL ∉ needle := fun h => hn (by simp [h])
      simp only [starts_with, List.cons_prefix_cons]
      by_cases hc : c = n
      · subst hc
        simp [hn1, ih hn2 s]
      · have hc2 : ¬ n = c := fun h => hc h.symm
        simp [hc, hc2]

theorem strlen_of_nul_free (s : List Char) (hs : NUL ∉ s) : strlen s = s.length := by
  induction s with
  | nil => rfl
  | cons c s ih =>
    have h1 : c ≠ NUL := fun h => hs (by simp [h])
    have h2 : NUL ∉ s := fun h => hs (by simp [h])
    simp [strlen, h1, ih h2]

theorem strcspn_of_nul_free (s : List Char) (hs : NUL ∉ s) :
    strcspn s [RBRACE] = (s.takeWhile not_rbrace).length := by
  induction s with
  | nil => rfl
  | cons c s ih =>
    have h1 : c ≠ NUL := fun h => hs (by simp [h])
    have h2 : NUL ∉ s := fun h => hs (by simp [h])
    by_cases hc : c = RBRACE
    · simp [strcspn, h1, hc, List.takeWhile, not_rbrace]
    · simp [strcspn, h1, hc, List.takeWhile, not_rbrace, ih h2]

theorem takeWhile_length_lt_iff (s : List Char) :
    (s.takeWhile not_rbrace).length < s.length ↔ RBRACE ∈ s := by
  induction s with
  | nil => simp
  | cons c s ih =>
    by_cases hc : c = RBRACE
    · simp [List.takeWhile, hc, not_rbrace]
    · have hc2 : ¬ RBRACE = c := fun h => hc h.symm
      have hc3 : not_rbrace c = true := by simp [not_rbrace, hc]
      simp [List.takeWhile, hc3, hc2, ih]

theorem take_takeWhile_length (s : List Char) (p : Char → Bool) :
    s.take (s.takeWhile p).length = s.takeWhile p := by
  induction s with
  | nil => rfl
  | cons c s ih =>
    by_cases hc : p c
    · simp [List.takeWhile, hc, ih]
    · simp [List.takeWhile, hc]

theorem cut_at_brace_of_nul_free (out : List Char) (hs : NUL ∉ out) :
    cut_at_brace out =
      if RBRACE ∈ out then some (out.takeWhile not_rbrace) else none := by
  unfold cut_at_brace strdup_cut
  rw [strcspn_of_nul_free out hs, strlen_of_nul_free out hs, List.take_length,
    take_takeWhile_length]
  by_cases h : RBRACE ∈ out
  · simp [h, (takeWhile_length_lt_iff out).2 h]
  · have h2 : ¬ (out.takeWhile not_rbrace).length < out.length :=
      fun hh => h ((takeWhile_length_lt_iff out).1 hh)
    simp [h, h2]

theorem strstr_of_nul_free (marker : List Char) (hm : NUL ∉ marker) (log : List Char)
    (hs : NUL ∉ log) :
    (strstr log marker).map (fun out => out.drop marker.length) = after_first marker log := by
  induction log with
  | nil =>
    cases marker <;> simp [strstr, starts_with, after_first]
  | cons c s ih =>
    have h1 : c ≠ NUL := fun h => hs (by simp [h])
    have h2 : NUL ∉ s := fun h => hs (by simp [h])
    unfold strstr after_first
    by_cases hp : marker <+: c :: s
    · simp [(starts_with_iff marker hm (c :: s)).2 hp, hp]
    · have hp2 : ¬ starts_with (c :: s) marker = true :=
        fun h => hp ((starts_with_iff marker hm (c :: s)).1 h)
      simp only [hp2, hp, h1, if_false]
      exact ih h2

theorem strstr_suffix (marker log out : List Char) (h : strstr log marker = some out) :
    out <:+ log := by
  induction log with
  | nil =>
    unfold strstr at h
    split at h
    · cases h; exact List.suffix_refl _
    · cases h
  | cons c s ih =>
    unfold strstr at h
    split at h
    · cases h; exact List.suffix_refl _
    · split at h
      · cases h
      · exact (ih h).trans (List.suffix_cons c s)

theorem nul_free_of_suffix (out log : List Char) (h : out <:+ log) (hs : NUL ∉ log) :
    NUL ∉ out := fun hm => hs (h.subset hm)

theorem extract_of_nul_free (marker log : List Char) (hm : NUL ∉ marker) (hs : NUL ∉ log) :
    (match strstr log marker with
     | some out => cut_at_brace (out.drop marker.length)
     | none => none) = extract_ref marker log := by
  have h1 := strstr_of_nul_free marker hm log hs
  unfold extract_ref
  rw [← h1]
  cases hso : strstr log marker with
  | none => rfl
  | some out =>
    have h2 : NUL ∉ out.drop marker.length := fun hx =>
      nul_free_of_suffix out log (strstr_suffix marker log out hso) hs (List.mem_of_mem_drop hx)
    simp only [Option.map_some']
    exact cut_at_brace_of_nul_free _ h2

theorem after_first_eq_none_iff (marker log : List Char) :
    after_first marker log = none ↔ ¬ marker <:+: log := by
  induction log with
  | nil => cases marker <;> simp [after_first]
  | cons c s ih =>
    unfold after_first
    by_cases hp : marker <+: c :: s
    · simp [hp, hp.isInfix]
    · simp only [hp, if_false, ih, List.infix_cons_iff, false_or]

theorem after_first_eq_some (marker log rest : List Char)
    (h : after_first marker log = some rest) :
    ∃ pre, log = pre ++ marker ++ rest ∧
      ∀ pre2 rest2, log = pre2 ++ marker ++ rest2 → pre.length ≤ pre2.length := by
  induction log with
  | nil =>
    unfold after_first at h
    split at h
    · rename_i hm
      cases h
      exact ⟨[], by simp [hm], fun _ _ _ => Nat.zero_le _⟩
    · cases h
  | cons c s ih =>
    unfold after_first at h
    by_cases hp : marker <+: c :: s
    · simp only [hp, if_true, Option.some.injEq] at h
      refine ⟨[], ?_, fun _ _ _ => Nat.zero_le _⟩
      rw [← h]
      simpa using (List.prefix_iff_eq_append.1 hp).symm
    · simp only [hp, if_false] at h
      obtain ⟨pre, hpre, hmin⟩ := ih h
      refine ⟨c :: pre, by simp [hpre], ?_⟩
      intro pre2 rest2 h2
      cases pre2 with
      | nil =>
        exact absurd ⟨rest2, by simpa using h2.symm⟩ hp
      | cons d p2 =>
        simp only [List.cons_append, List.cons.injEq] at h2
        have := hmin p2 rest2 h2.2
        simp only [List.length_cons]
        omega

/-- A marker that opens with a character it does not repeat cannot start
inside a non-empty text `q` placed before a copy of itself, unless it lies
wholly in `q`. -/
theorem no_border (b : Char) (m q tail : List Char) (hb : b ∉ m) (hq : q ≠ [])
    (h : (b :: m) <+: q ++ ((b :: m) ++ tail)) : (b :: m) <+: q := by
  obtain ⟨x, hx⟩ := h
  rcases List.append_eq_append_iff.1 hx with ⟨a, ha, _⟩ | ⟨r, hr, hr2⟩
  · exact ⟨a, ha.symm⟩
  · cases r with
    | nil => exact ⟨[], by simpa using hr⟩
    | cons d r =>
      exfalso
      cases q with
      | nil => exact hq rfl
      | cons c q =>
        simp only [List.cons_append, List.cons.injEq] at hr hr2
        obtain ⟨hd, -⟩ := hr2
        apply hb
        rw [hr.2, ← hd]
        simp

theorem strstr_at_first (b : Char) (m pre tail : List Char) (hb : b ∉ m)
    (hm : NUL ∉ b :: m) (hpre : NUL ∉ pre) (hno : ¬ (b :: m) <:+: pre) :
    strstr (pre ++ ((b :: m) ++ tail)) (b :: m) = some ((b :: m) ++ tail) := by
  induction pre with
  | nil =>
    have : starts_with ((b :: m) ++ tail) (b :: m) = true :=
      (starts_with_iff _ hm _).2 (List.prefix_append _ _)
    simp only [List.nil_append, List.cons_append] at this ⊢
    unfold strstr
    simp [this]
  | cons c p ih =>
    have h1 : c ≠ NUL := fun h => hpre (by simp [h])
    have h2 : NUL ∉ p := fun h => hpre (by simp [h])
    have h3 : ¬ (b :: m) <:+: p := fun h => hno (List.infix_cons h)
    have h4 : ¬ starts_with (c :: p ++ ((b :: m) ++ tail)) (b :: m) = true := by
      intro hs
      have hp := (starts_with_iff _ hm _).1 hs
      exact hno (no_border b m (c :: p) tail hb (by simp) hp).isInfix
    simp only [List.cons_append] at h4 ⊢
    unfold strstr
    simp only [h4, h1, if_false]
    exact ih h2 h3

theorem strcspn_append_brace (v suf : List Char) (hv : NUL ∉ v) (hb : RBRACE ∉ v) :
    strcspn (v ++ RBRACE :: suf) [RBRACE] = v.length := by
  induction v with
  | nil => simp [strcspn]
  | cons c v ih =>
    have h1 : c ≠ NUL := fun h => hv (by simp [h])
    have h2 : NUL ∉ v := fun h => hv (by simp [h])
    have h3 : c ≠ RBRACE := fun h => hb (by simp [h])
    have h4 : RBRACE ∉ v := fun h => hb (by simp [h])
    simp [strcspn, h1, h3, ih h2 h4]

theorem strlen_append_brace (v suf : List Char) (hv : NUL ∉ v) :
    v.length < strlen (v ++ RBRACE :: suf) := by
  induction v with
  | nil =>
    have : RBRACE ≠ NUL := by decide
    simp [strlen, this]
  | cons c v ih =>
    have h1 : c ≠ NUL := fun h => hv (by simp [h])
    have h2 : NUL ∉ v := fun h => hv (by simp [h])
    simp [strlen, h1, ih h2]

theorem cut_at_brace_append (v suf : List Char) (hv : NUL ∉ v) (hb : RBRACE ∉ v) :
    cut_at_brace (v ++ RBRACE :: suf) = some v := by
  unfold cut_at_brace strdup_cut
  have hl := strlen_append_brace v suf hv
  rw [strcspn_append_brace v suf hv hb, if_pos hl, List.take_take,
    Nat.min_eq_left (Nat.le_of_lt hl), List.take_left]

/-! ## Claims on the tag extractor -/

/-- C1: on every NUL-free log, `get_pci_dss` and `get_cis` agree with the
reference extractor for their marker: absent when the marker does not occur
or when no closing brace follows its first occurrence, otherwise the
untrimmed text between that occurrence and the next closing brace. -/
theorem get_tags_eq_extract_ref (log : List Char) (h : NUL ∉ log) :
    get_pci_dss log = extract_ref PCI_DSS_MARKER log ∧
    get_cis log = extract_ref CIS_MARKER log :=
  ⟨extract_of_nul_free PCI_DSS_MARKER log (by decide) h,
   extract_of_nul_free CIS_MARKER log (by decide) h⟩

/-- Witness of C1 on a log with a brace ahead of the marker, an empty PCI
value and an unterminated CIS marker. -/
theorem get_tags_eq_extract_ref_witness :
    NUL ∉ "a\x7d \x7bPCI_DSS: \x7d \x7bCIS: 1.1".toList ∧
    (get_pci_dss "a\x7d \x7bPCI_DSS: \x7d \x7bCIS: 1.1".toList
        = extract_ref PCI_DSS_MARKER "a\x7d \x7bPCI_DSS: \x7d \x7bCIS: 1.1".toList ∧
     get_cis "a\x7d \x7bPCI_DSS: \x7d \x7bCIS: 1.1".toList
        = extract_ref CIS_MARKER "a\x7d \x7bPCI_DSS: \x7d \x7bCIS: 1.1".toList) :=
  ⟨by decide, get_tags_eq_extract_ref _ (by decide)⟩

/-- C2: extraction round trip. When `pre` is NUL-free and does not contain the
marker, and `v` is NUL-free and holds no closing brace, the extractor applied
to `pre ++ marker ++ v ++ "}" ++ suf` returns exactly `v`, for both markers
and every `suf`. -/
theorem get_tags_round_trip (pre v suf : List Char) (hpre : NUL ∉ pre) (hv : NUL ∉ v)
    (hb : RBRACE ∉ v) :
    (¬ PCI_DSS_MARKER <:+: pre →
      get_pci_dss (pre ++ PCI_DSS_MARKER ++ v ++ RBRACE :: suf) = some v) ∧
    (¬ CIS_MARKER <:+: pre →
      get_cis (pre ++ CIS_MARKER ++ v ++ RBRACE :: suf) = some v) := by
  constructor
  · intro hno
    have hs : strstr (pre ++ (PCI_DSS_MARKER ++ (v ++ RBRACE :: suf))) PCI_DSS_MARKER
        = some (PCI_DSS_MARKER ++ (v ++ RBRACE :: suf)) :=
      strstr_at_first _ _ pre (v ++ RBRACE :: suf) (by decide) (by decide) hpre hno
    have hc := cut_at_brace_append v suf hv hb
    unfold get_pci_dss
    simp only [List.append_assoc]
    rw [hs]
    simpa [PCI_DSS_MARKER, cut_at_brace] using hc
  · intro hno
    have hs : strstr (pre ++ (CIS_MARKER ++ (v ++ RBRACE :: suf))) CIS_MARKER
        = some (CIS_MARKER ++ (v ++ RBRACE :: suf)) :=
      strstr_at_first _ _ pre (v ++ RBRACE :: suf) (by decide) (by decide) hpre hno
    have hc := cut_at_brace_append v suf hv hb
    unfold get_cis
    simp only [List.append_assoc]
    rw [hs]
    simpa [CIS_MARKER, cut_at_brace] using hc

/-- Witness of C2: the example of the specification. -/
theorem get_tags_round_trip_witness :
    NUL ∉ "prefix ".toList ∧ NUL ∉ "1.2.3".toList ∧ RBRACE ∉ "1.2.3".toList ∧
    ¬ PCI_DSS_MARKER <:+: "prefix ".toList ∧
    get_pci_dss ("prefix ".toList ++ PCI_DSS_MARKER ++ "1.2.3".toList ++ RBRACE :: " suffix".toList)
      = some "1.2.3".toList :=
  ⟨by decide, by decide, by decide, by decide,
   (get_tags_round_trip "prefix ".toList "1.2.3".toList " suffix".toList
    (by decide) (by decide) (by decide)).1 (by decide)⟩

/-! ## Lemmas on the engine model -/

theorem toInt32_of_in_range (v : Int) (h : in_int_range v) : toInt32 v = v := by
  unfold in_int_range INT_MIN INT_MAX at h
  unfold toInt32
  omega

theorem forall2_update (d : Int) (log : List Char) (rows : List Row) :
    List.Forall₂ (updated_row d log) rows
      (rows.map (fun r => if r.log = log then { r with date_last := d } else r)) := by
  induction rows with
  | nil => exact List.Forall₂.nil
  | cons r rows ih =>
    refine List.Forall₂.cons ?_ ih
    by_cases h : r.log = log <;> simp [updated_row, h]

/-! ## Return values of the session calls -/

theorem find_result_eq (env : Env) (wdb : wdb_t) (log : List Char) :
    (wdb_rootcheck_find env wdb log).result =
      if ¬ begun env wdb then -1
      else if env.stmt_cache_rc < 0 then -1
      else if env.step_rc = SQLITE_ROW then 1
      else if env.step_rc = SQLITE_DONE then 0
      else -1 := by
  obtain ⟨db, tx⟩ := wdb
  cases tx
  · by_cases hb : env.begin2_rc < 0
    · have hb2 : ¬ 0 ≤ env.begin2_rc := by omega
      simp [wdb_rootcheck_find, wdb_begin2, begun, hb, hb2]
    · have hb2 : 0 ≤ env.begin2_rc := by omega
      simp only [wdb_rootcheck_find, wdb_begin2, sqlite3_step, begun, hb, hb2]
      split_ifs <;> simp_all <;> omega
  · simp only [wdb_rootcheck_find, sqlite3_step, begun]
    split_ifs <;> simp_all

theorem wdb_rootcheck_save_eq (env : Env) (wdb : wdb_t) (date_last : Int) (log : List Char)
    (hb : begun env wdb) (hc : 0 ≤ env.stmt_cache_rc) :
    (wdb_rootcheck_save env wdb date_last log).result
        = (if env.step_rc = SQLITE_DONE then 0 else -1) ∧
    (wdb_rootcheck_save env wdb date_last log).state.db
        = (if env.step_rc = SQLITE_DONE then
            exec env.rowid (.insert_pm (toInt32 date_last) (toInt32 date_last) (c_str log)
              (get_pci_dss log) (get_cis log)) wdb.db
           else wdb.db) ∧
    [Call.sqlite3_bind_int 1 (toInt32 date_last), Call.sqlite3_bind_int 2 (toInt32 date_last),
      Call.sqlite3_bind_text 3 (some (c_str log)), Call.sqlite3_bind_text 4 (get_pci_dss log),
      Call.sqlite3_bind_text 5 (get_cis log), Call.sqlite3_step]
        <:+: (wdb_rootcheck_save env wdb date_last log).calls := by
  obtain ⟨db, tx⟩ := wdb
  have hc2 : ¬ env.stmt_cache_rc < 0 := by omega
  cases tx
  · have hb1 : 0 ≤ env.begin2_rc := by simpa [begun] using hb
    have hb2 : ¬ env.begin2_rc < 0 := by omega
    by_cases hd : env.step_rc = SQLITE_DONE
    · simp only [wdb_rootcheck_save, wdb_begin2, sqlite3_step, hb2, hc2, hd]
      refine ⟨by simp [hb2], by simp [hb2], ⟨[.wdb_begin2, .wdb_stmt_cache .WDB_STMT_PM_INSERT], [], by simp [hb2]⟩⟩
    · simp only [wdb_rootcheck_save, wdb_begin2, sqlite3_step, hb2, hc2, hd]
      refine ⟨by simp [hb2], by simp [hb2],
        ⟨[.wdb_begin2, .wdb_stmt_cache .WDB_STMT_PM_INSERT], [.sqlite3_errmsg, .merror], by simp [hb2]⟩⟩
  · by_cases hd : env.step_rc = SQLITE_DONE
    · simp only [wdb_rootcheck_save, sqlite3_step, hc2, hd]
      refine ⟨by simp, by simp, ⟨[.wdb_stmt_cache .WDB_STMT_PM_INSERT], [], by simp⟩⟩
    · simp only [wdb_rootcheck_save, sqlite3_step, hc2, hd]
      refine ⟨by simp, by simp,
        ⟨[.wdb_stmt_cache .WDB_STMT_PM_INSERT], [.sqlite3_errmsg, .merror], by simp⟩⟩

theorem wdb_rootcheck_update_eq (env : Env) (wdb : wdb_t) (date_last : Int) (log : List Char)
    (hb : begun env wdb) (hc : 0 ≤ env.stmt_cache_rc) :
    (wdb_rootcheck_update env wdb date_last log).result
        = (if env.step_rc = SQLITE_DONE then
            (exec env.rowid (.update_pm (toInt32 date_last) (c_str log)) wdb.db).changes
           else -1) ∧
    (wdb_rootcheck_update env wdb date_last log).state.db
        = (if env.step_rc = SQLITE_DONE then
            exec env.rowid (.update_pm (toInt32 date_last) (c_str log)) wdb.db
           else wdb.db) := by
  obtain ⟨db, tx⟩ := wdb
  have hc2 : ¬ env.stmt_cache_rc < 0 := by omega
  cases tx
  · have hb1 : 0 ≤ env.begin2_rc := by simpa [begun] using hb
    have hb2 : ¬ env.begin2_rc < 0 := by omega
    by_cases hd : env.step_rc = SQLITE_DONE <;>
      simp [wdb_rootcheck_update, wdb_begin2, sqlite3_step, hb2, hc2, hd]
  · by_cases hd : env.step_rc = SQLITE_DONE <;>
      simp [wdb_rootcheck_update, sqlite3_step, hc2, hd]

theorem wdb_update_pm_eq (env : Env) (db : sqlite3) (event : rk_event_t)
    (hp : env.prepare_rc = 0) :
    (wdb_update_pm env db event).result
        = (if env.step_rc = SQLITE_DONE then
            (exec env.rowid (.update_pm (toInt32 event.date_last) (c_str event.log)) db).changes
           else -1) ∧
    (wdb_update_pm env db event).state
        = (if env.step_rc = SQLITE_DONE then
            exec env.rowid (.update_pm (toInt32 event.date_last) (c_str event.log)) db
           else db) := by
  by_cases hd : env.step_rc = SQLITE_DONE <;>
    simp [wdb_update_pm, sqlite3_step, hp, hd]

theorem wdb_insert_pm_eq (env : Env) (db : sqlite3) (event : rk_event_t)
    (hp : env.prepare_rc = 0) :
    (wdb_insert_pm env db event).result
        = (if env.step_rc = SQLITE_DONE then toInt32 env.rowid else -1) ∧
    (wdb_insert_pm env db event).state
        = (if env.step_rc = SQLITE_DONE then
            exec env.rowid (.insert_pm (toInt32 event.date_first) (toInt32 event.date_last)
              (c_str event.log) (get_pci_dss event.log) (get_cis event.log)) db
           else db) := by
  by_cases hd : env.step_rc = SQLITE_DONE <;>
    simp [wdb_insert_pm, sqlite3_step, exec, hp, hd]

theorem discipline_find (env : Env) (wdb : wdb_t) (log : List Char) :
    discipline env wdb (wdb_rootcheck_find env wdb log) := by
  obtain ⟨db, tx⟩ := wdb
  have hne : ¬ SQLITE_DONE = SQLITE_ROW := by decide
  cases tx <;>
    by_cases hb : env.begin2_rc < 0 <;>
    by_cases hc : env.stmt_cache_rc < 0 <;>
    by_cases hr : env.step_rc = SQLITE_ROW <;>
    by_cases hd : env.step_rc = SQLITE_DONE <;>
    simp [discipline, wdb_rootcheck_find, wdb_begin2, sqlite3_step, exec, hb, hc, hr, hd, hne]

theorem discipline_save (env : Env) (wdb : wdb_t) (date_last : Int) (log : List Char) :
    discipline env wdb (wdb_rootcheck_save env wdb date_last log) := by
  obtain ⟨db, tx⟩ := wdb
  cases tx <;>
    by_cases hb : env.begin2_rc < 0 <;>
    by_cases hc : env.stmt_cache_rc < 0 <;>
    by_cases hd : env.step_rc = SQLITE_DONE <;>
    simp [discipline, wdb_rootcheck_save, wdb_begin2, sqlite3_step, hb, hc, hd]

theorem discipline_update (env : Env) (wdb : wdb_t) (date_last : Int) (log : List Char) :
    discipline env wdb (wdb_rootcheck_update env wdb date_last log) := by
  obtain ⟨db, tx⟩ := wdb
  cases tx <;>
    by_cases hb : env.begin2_rc < 0 <;>
    by_cases hc : env.stmt_cache_rc < 0 <;>
    by_cases hd : env.step_rc = SQLITE_DONE <;>
    simp [discipline, wdb_rootcheck_update, wdb_begin2, sqlite3_step, hb, hc, hd]

theorem legacy_never_commit (env : Env) (db : sqlite3) (event : rk_event_t) (ag : Agents)
    (id : Int) (c : Call) (hc : c = .wdb_commit ∨ c = .wdb_rollback ∨ c = .wdb_begin2) :
    c ∉ (wdb_insert_pm env db event).calls ∧ c ∉ (wdb_update_pm env db event).calls ∧
    c ∉ (wdb_delete_pm env ag id).calls := by
  refine ⟨?_, ?_, ?_⟩
  · by_cases hp : env.prepare_rc = 0 <;> by_cases hd : env.step_rc = SQLITE_DONE <;>
      rcases hc with h | h | h <;> subst h <;>
      simp [wdb_insert_pm, sqlite3_step, hp, hd]
  · by_cases hp : env.prepare_rc = 0 <;> by_cases hd : env.step_rc = SQLITE_DONE <;>
      rcases hc with h | h | h <;> subst h <;>
      simp [wdb_update_pm, sqlite3_step, hp, hd]
  · unfold wdb_delete_pm
    by_cases hi : id = 0 <;> by_cases hp : env.prepare_rc = 0 <;>
      by_cases hd : env.step_rc = SQLITE_DONE <;>
      rcases hc with h | h | h <;> subst h <;>
      simp only [hi, hp, hd, sqlite3_step] <;>
      (split <;> [simp; (split <;> simp [hp, hd])])

/-! ## Claims on the session API -/

/-- C5: `wdb_rootcheck_find` returns 1 exactly when the find statement was
obtained (transaction active or begun, statement cached) and the step yields a
row, 0 exactly when it was obtained and the step completes without a row, and
-1 in every other case; the result is always one of 1, 0, -1. -/
theorem wdb_rootcheck_find_result (env : Env) (wdb : wdb_t) (log : List Char) :
    ((wdb_rootcheck_find env wdb log).result = 1 ↔
      begun env wdb ∧ 0 ≤ env.stmt_cache_rc ∧ env.step_rc = SQLITE_ROW) ∧
    ((wdb_rootcheck_find env wdb log).result = 0 ↔
      begun env wdb ∧ 0 ≤ env.stmt_cache_rc ∧ env.step_rc = SQLITE_DONE) ∧
    ((wdb_rootcheck_find env wdb log).result = -1 ↔
      ¬ begun env wdb ∨ env.stmt_cache_rc < 0 ∨
        (env.step_rc ≠ SQLITE_ROW ∧ env.step_rc ≠ SQLITE_DONE)) ∧
    ((wdb_rootcheck_find env wdb log).result = 1 ∨
      (wdb_rootcheck_find env wdb log).result = 0 ∨
      (wdb_rootcheck_find env wdb log).result = -1) := by
  rw [find_result_eq]
  unfold SQLITE_ROW SQLITE_DONE
  by_cases hb : begun env wdb <;>
    by_cases hc : env.stmt_cache_rc < 0 <;>
    by_cases hr : env.step_rc = 100 <;>
    by_cases hd : env.step_rc = 101 <;>
    simp [hb, hc, hr, hd] <;> omega

/-- In-range behaviour of `wdb_rootcheck_save`: when the call gets past the
transaction check and the statement is cached, and `date_last` fits the C
`int`, the insert is bound with `date_first = date_last = date_last`, the log
and the two extracted tags; the call returns 0 exactly when the step
completes and -1 otherwise. -/
theorem wdb_rootcheck_save_in_range (env : Env) (wdb : wdb_t) (date_last : Int)
    (log : List Char) (hb : begun env wdb) (hc : 0 ≤ env.stmt_cache_rc)
    (hr : in_int_range date_last) :
    [Call.sqlite3_bind_int 1 date_last, Call.sqlite3_bind_int 2 date_last,
      Call.sqlite3_bind_text 3 (some (c_str log)), Call.sqlite3_bind_text 4 (get_pci_dss log),
      Call.sqlite3_bind_text 5 (get_cis log), Call.sqlite3_step]
        <:+: (wdb_rootcheck_save env wdb date_last log).calls ∧
    (env.step_rc = SQLITE_DONE →
      (wdb_rootcheck_save env wdb date_last log).result = 0 ∧
      (wdb_rootcheck_save env wdb date_last log).state.db.pm_event =
        wdb.db.pm_event ++ [⟨env.rowid, date_last, date_last, c_str log,
          get_pci_dss log, get_cis log⟩]) ∧
    (env.step_rc ≠ SQLITE_DONE → (wdb_rootcheck_save env wdb date_last log).result = -1) := by
  obtain ⟨h1, h2, h3⟩ := wdb_rootcheck_save_eq env wdb date_last log hb hc
  rw [toInt32_of_in_range date_last hr] at h2 h3
  refine ⟨h3, fun hd => ?_, fun hd => ?_⟩
  · rw [h1, h2]; simp [hd, exec]
  · rw [h1]; simp [hd]

/-- C3 (failing input): `wdb_rootcheck_save(wdb, 2147483648, "x")` on an empty
store, transaction active, statement cached, step completed. The call
returns 0, yet `sqlite3_bind_int` receives the `long` narrowed to `int`: the
row is stored with `date_first = date_last = -2147483648`. -/
theorem wdb_rootcheck_save_narrows :
    in_long_range 2147483648 ∧
    (wdb_rootcheck_save ⟨0, 0, true, 0, SQLITE_DONE, 1⟩ ⟨⟨[], 0, 0⟩, true⟩ 2147483648
      "x".toList).result = 0 ∧
    (wdb_rootcheck_save ⟨0, 0, true, 0, SQLITE_DONE, 1⟩ ⟨⟨[], 0, 0⟩, true⟩ 2147483648
      "x".toList).state.db.pm_event
      = [⟨1, -2147483648, -2147483648, "x".toList, none, none⟩] ∧
    Call.sqlite3_bind_int 1 2147483648 ∉
      (wdb_rootcheck_save ⟨0, 0, true, 0, SQLITE_DONE, 1⟩ ⟨⟨[], 0, 0⟩, true⟩ 2147483648
        "x".toList).calls := by
  decide

/-- In-range behaviour of the two updates: when the step completes and
`date_last` fits the C `int`, every row is replaced by a row that differs at
most in `date_last`, which is the given value on exactly the rows whose log
is the given text; no row is added or removed; the call returns the number of
matching rows. -/
theorem update_frame_in_range (env : Env) (wdb : wdb_t) (date_last : Int) (log : List Char)
    (hb : begun env wdb) (hc : 0 ≤ env.stmt_cache_rc) (hp : env.prepare_rc = 0)
    (hd : env.step_rc = SQLITE_DONE) (hr : in_int_range date_last) :
    (List.Forall₂ (updated_row date_last (c_str log)) wdb.db.pm_event
        (wdb_rootcheck_update env wdb date_last log).state.db.pm_event ∧
      (wdb_rootcheck_update env wdb date_last log).result
        = ((wdb.db.pm_event.filter (fun r => r.log = c_str log)).length : Nat)) ∧
    (List.Forall₂ (updated_row date_last (c_str log)) wdb.db.pm_event
        (wdb_update_pm env wdb.db ⟨0, date_last, log⟩).state.pm_event ∧
      (wdb_update_pm env wdb.db ⟨0, date_last, log⟩).result
        = ((wdb.db.pm_event.filter (fun r => r.log = c_str log)).length : Nat)) := by
  obtain ⟨h1, h2⟩ := wdb_rootcheck_update_eq env wdb date_last log hb hc
  obtain ⟨h3, h4⟩ := wdb_update_pm_eq env wdb.db ⟨0, date_last, log⟩ hp
  simp only [toInt32_of_in_range date_last hr, hd, if_true] at h1 h2 h3 h4
  rw [h1, h2, h3, h4]
  exact ⟨⟨forall2_update _ _ _, rfl⟩, ⟨forall2_update _ _ _, rfl⟩⟩

/-- Witness of `update_frame_in_range`. -/
theorem update_frame_in_range_witness :
    (wdb_rootcheck_update ⟨0, 0, true, 0, SQLITE_DONE, 1⟩
      ⟨⟨[⟨1, 100, 100, "a".toList, none, none⟩], 0, 0⟩, true⟩ 200 "b".toList).result
      = (0 : Nat) :=
  ((update_frame_in_range ⟨0, 0, true, 0, SQLITE_DONE, 1⟩
      ⟨⟨[⟨1, 100, 100, "a".toList, none, none⟩], 0, 0⟩, true⟩ 200 "b".toList
      (by decide) (by decide) (by decide) (by decide) (by decide)).1).2

/-- C4 (failing input): `wdb_rootcheck_update(wdb, 2147483648, "x")` on a store
whose only row has log `x`. The step completes and the call returns 1, yet
the row receives `date_last = -2147483648`, the `long` narrowed to `int` by
`sqlite3_bind_int`, not the given value. -/
theorem wdb_rootcheck_update_narrows :
    in_long_range 2147483648 ∧
    (wdb_rootcheck_update ⟨0, 0, true, 0, SQLITE_DONE, 1⟩
      ⟨⟨[⟨1, 100, 100, "x".toList, none, none⟩], 0, 0⟩, true⟩ 2147483648 "x".toList).result = 1 ∧
    (wdb_rootcheck_update ⟨0, 0, true, 0, SQLITE_DONE, 1⟩
      ⟨⟨[⟨1, 100, 100, "x".toList, none, none⟩], 0, 0⟩, true⟩ 2147483648
        "x".toList).state.db.pm_event
      = [⟨1, 100, -2147483648, "x".toList, none, none⟩] := by
  decide

/-- C7: transaction discipline. Each of `wdb_rootcheck_find`,
`wdb_rootcheck_save` and `wdb_rootcheck_update` calls `wdb_begin2` once when
the transaction flag is unset and never when it is set; when that begin fails
the call returns -1 after the begin and a debug message only, the connection
untouched; no call of the file, session or legacy, commits or rolls back; and
no session call writes the transaction flag: on return a flag that was set is
still set, and a flag that was unset holds exactly what `wdb_begin2` left in
it, so a transaction begun by the call is never cleared by it. -/
theorem transaction_discipline (env : Env) (wdb : wdb_t) (date_last : Int) (log : List Char)
    (event : rk_event_t) (ag : Agents) (id : Int) :
    discipline env wdb (wdb_rootcheck_find env wdb log) ∧
    discipline env wdb (wdb_rootcheck_save env wdb date_last log) ∧
    discipline env wdb (wdb_rootcheck_update env wdb date_last log) ∧
    (Call.wdb_commit ∉ (wdb_insert_pm env wdb.db event).calls ∧
      Call.wdb_commit ∉ (wdb_update_pm env wdb.db event).calls ∧
      Call.wdb_commit ∉ (wdb_delete_pm env ag id).calls) ∧
    (Call.wdb_rollback ∉ (wdb_insert_pm env wdb.db event).calls ∧
      Call.wdb_rollback ∉ (wdb_update_pm env wdb.db event).calls ∧
      Call.wdb_rollback ∉ (wdb_delete_pm env ag id).calls) :=
  ⟨discipline_find env wdb log, discipline_save env wdb date_last log,
   discipline_update env wdb date_last log,
   legacy_never_commit env wdb.db event ag id _ (Or.inl rfl),
   legacy_never_commit env wdb.db event ag id _ (Or.inr (Or.inl rfl))⟩

/-! ## Claims on the legacy API -/

/-- Return value of `wdb_delete_pm`: -1, or the number of rows the store of
the agent held before the call. -/
theorem wdb_delete_pm_result (env : Env) (ag : Agents) (id : Int) :
    (wdb_delete_pm env ag id).result = -1 ∨
    ∃ db, ag.store id = some db ∧
      (wdb_delete_pm env ag id).result = (db.pm_event.length : Nat) := by
  unfold wdb_delete_pm
  dsimp only
  generalize (if id ≠ 0 then ag.name id else some "localhost".toList) = name
  cases name with
  | none => exact Or.inl rfl
  | some name =>
    cases hdb : ag.store id with
    | none => exact Or.inl rfl
    | some db =>
      by_cases hp : env.prepare_rc = 0 <;> by_cases hd : env.step_rc = SQLITE_DONE
      · right
        exact ⟨db, rfl, by simp [hp, hd, sqlite3_step, exec]⟩
      · left; simp [hp, hd, sqlite3_step]
      · left; simp [hp]
      · left; simp [hp]

/-- C8 (failing input): `wdb_delete_pm(1)` where the name of agent 1 resolves,
its store opens and holds two rows, the statement is prepared and the step
completes. The store is emptied and the call returns 2, the count given by
`sqlite3_changes`, not 0. -/
theorem wdb_delete_pm_returns_count :
    (wdb_delete_pm ⟨0, 0, true, 0, SQLITE_DONE, 1⟩
      ⟨fun _ => some "agent1".toList,
       fun _ => some ⟨[⟨1, 100, 100, "a".toList, none, none⟩,
                        ⟨2, 100, 200, "b".toList, none, none⟩], 0, 0⟩⟩ 1).result = 2 ∧
    ((wdb_delete_pm ⟨0, 0, true, 0, SQLITE_DONE, 1⟩
      ⟨fun _ => some "agent1".toList,
       fun _ => some ⟨[⟨1, 100, 100, "a".toList, none, none⟩,
                        ⟨2, 100, 200, "b".toList, none, none⟩], 0, 0⟩⟩ 1).state.store 1).map
        (fun db => db.pm_event) = some [] := by
  decide

/-- The state left by the sweep is the state left by the calls of the callee
on 0 and then on each identifier ahead of the terminator, in order, whatever
the callee does and returns. -/
theorem wdb_delete_pm_all_fold {σ : Type} (del : Int → σ → Int × σ) (ids rest : List Int)
    (t : Int) (hids : ∀ a ∈ ids, 0 ≤ a) (ht : t < 0) (s : σ) :
    wdb_delete_pm_all del (some (ids ++ t :: rest)) s
      = (0 :: ids).foldl (fun s a => (del a s).2) s := by
  unfold wdb_delete_pm_all
  simp only [List.foldl_cons]
  generalize (del 0 s).2 = s1
  induction ids generalizing s1 with
  | nil =>
    have : ¬ t ≥ 0 := by omega
    simp [wdb_delete_pm_loop, this]
  | cons a ids ih =>
    have ha : a ≥ 0 := hids a (by simp)
    simp only [List.cons_append, wdb_delete_pm_loop, ha, if_true, List.foldl_cons]
    exact ih (fun b hb => hids b (by simp [hb])) _

theorem foldl_recorder (res : List Int → Int → Int) (ids history : List Int) :
    ids.foldl (fun s a => (recorder res a s).2) history = history ++ ids := by
  induction ids generalizing history with
  | nil => simp
  | cons a ids ih =>
    rw [List.foldl_cons, ih]
    simp [recorder]

/-- C9: order and resilience of the sweep. With every call of `wdb_delete_pm`
recorded and answered by an arbitrary `res` (success or -1, possibly depending
on the calls made so far), `wdb_delete_pm_all` makes no call when the
enumeration is NULL; on an array `a_0 .. a_(n-1)` of non-negative identifiers
followed by a negative terminator it calls `wdb_delete_pm` on exactly
`0, a_0, .., a_(n-1)`, in that order, once each. -/
theorem wdb_delete_pm_all_calls (res : List Int → Int → Int) (ids rest : List Int) (t : Int)
    (hids : ∀ a ∈ ids, 0 ≤ a) (ht : t < 0) :
    wdb_delete_pm_all (recorder res) none [] = [] ∧
    wdb_delete_pm_all (recorder res) (some (ids ++ t :: rest)) [] = 0 :: ids := by
  refine ⟨rfl, ?_⟩
  rw [wdb_delete_pm_all_fold (recorder res) ids rest t hids ht, foldl_recorder]
  rfl

/-- Witness of C9: three agents, every call answering -1. -/
theorem wdb_delete_pm_all_calls_witness :
    wdb_delete_pm_all (recorder (fun _ _ => -1)) none [] = [] ∧
    wdb_delete_pm_all (recorder (fun _ _ => -1)) (some ([3, 0, 7] ++ (-1) :: [5])) []
      = 0 :: [3, 0, 7] :=
  wdb_delete_pm_all_calls (fun _ _ => -1) [3, 0, 7] [5] (-1) (by decide) (by decide)

/-- The sweep on a directory where the store of agent 2 cannot be opened: the
stores of the pseudo-agent 0 and of agents 1 and 3 are emptied all the same. -/
theorem sweep_resilience_example :
    ([0, 1, 2, 3].map (fun id =>
      ((wdb_delete_pm_all (delete_callee ⟨0, 0, true, 0, SQLITE_DONE, 1⟩) (some [1, 2, 3, -1])
        ⟨fun _ => some "n".toList,
         fun id => if id = 2 then none
                   else some ⟨[⟨1, 100, 100, "a".toList, none, none⟩], 0, 0⟩⟩).store id).map
        (fun db => db.pm_event)))
      = [some [], some [], none, some []] := by
  decide

theorem wdb_rootcheck_save_state (env : Env) (wdb : wdb_t) (date_last : Int) (log : List Char) :
    (wdb_rootcheck_save env wdb date_last log).state.db = wdb.db ∨
    (wdb_rootcheck_save env wdb date_last log).state.db =
      exec env.rowid (.insert_pm (toInt32 date_last) (toInt32 date_last) (c_str log)
        (get_pci_dss log) (get_cis log)) wdb.db := by
  obtain ⟨db, tx⟩ := wdb
  cases tx <;>
    by_cases hb : env.begin2_rc < 0 <;>
    by_cases hc : env.stmt_cache_rc < 0 <;>
    by_cases hd : env.step_rc = SQLITE_DONE <;>
    simp [wdb_rootcheck_save, wdb_begin2, sqlite3_step, hb, hc, hd]

theorem wdb_rootcheck_update_state (env : Env) (wdb : wdb_t) (date_last : Int)
    (log : List Char) :
    (wdb_rootcheck_update env wdb date_last log).state.db = wdb.db ∨
    (wdb_rootcheck_update env wdb date_last log).state.db =
      exec env.rowid (.update_pm (toInt32 date_last) (c_str log)) wdb.db := by
  obtain ⟨db, tx⟩ := wdb
  cases tx <;>
    by_cases hb : env.begin2_rc < 0 <;>
    by_cases hc : env.stmt_cache_rc < 0 <;>
    by_cases hd : env.step_rc = SQLITE_DONE <;>
    simp [wdb_rootcheck_update, wdb_begin2, sqlite3_step, hb, hc, hd]

theorem wdb_insert_pm_state (env : Env) (db : sqlite3) (event : rk_event_t) :
    (wdb_insert_pm env db event).state = db ∨
    (wdb_insert_pm env db event).state =
      exec env.rowid (.insert_pm (toInt32 event.date_first) (toInt32 event.date_last)
        (c_str event.log) (get_pci_dss event.log) (get_cis event.log)) db := by
  by_cases hp : env.prepare_rc = 0 <;> by_cases hd : env.step_rc = SQLITE_DONE <;>
    simp [wdb_insert_pm, sqlite3_step, hp, hd]

theorem wdb_update_pm_state (env : Env) (db : sqlite3) (event : rk_event_t) :
    (wdb_update_pm env db event).state = db ∨
    (wdb_update_pm env db event).state =
      exec env.rowid (.update_pm (toInt32 event.date_last) (c_str event.log)) db := by
  by_cases hp : env.prepare_rc = 0 <;> by_cases hd : env.step_rc = SQLITE_DONE <;>
    simp [wdb_update_pm, sqlite3_step, hp, hd]

theorem wdb_delete_pm_state (env : Env) (ag : Agents) (id : Int) (db : sqlite3) :
    ((wdb_delete_pm env (ag.put id db) id).state.store id).getD db = db ∨
    ((wdb_delete_pm env (ag.put id db) id).state.store id).getD db = exec env.rowid .delete_pm db := by
  have hst : (ag.put id db).store id = some db := by simp [Agents.put]
  unfold wdb_delete_pm
  dsimp only
  generalize (if id ≠ 0 then (ag.put id db).name id else some "localhost".toList) = name
  cases name with
  | none => left; simp [hst]
  | some name =>
    rw [hst]
    by_cases hp : env.prepare_rc = 0 <;> by_cases hd : env.step_rc = SQLITE_DONE
    · right; simp [hp, hd, sqlite3_step, Agents.put]
    · left; simp [hp, hd, sqlite3_step, Agents.put]
    · left; simp [hp, hst]
    · left; simp [hp, hst]

theorem dates_ordered_insert (rowid : Int) (db : sqlite3) (p1 p2 : Int) (p3 : List Char)
    (p4 p5 : Option (List Char)) (h : dates_ordered db) (h12 : p1 ≤ p2) :
    dates_ordered (exec rowid (.insert_pm p1 p2 p3 p4 p5) db) := by
  intro r hr
  simp only [exec, List.mem_append, List.mem_singleton] at hr
  rcases hr with hr | hr
  · exact h r hr
  · subst hr; exact h12

theorem dates_ordered_update (rowid : Int) (db : sqlite3) (p1 : Int) (p2 : List Char)
    (h : dates_ordered db) (hm : ∀ r ∈ db.pm_event, r.log = p2 → r.date_first ≤ p1) :
    dates_ordered (exec rowid (.update_pm p1 p2) db) := by
  intro r hr
  simp only [exec, List.mem_map] at hr
  obtain ⟨r0, hr0, rfl⟩ := hr
  by_cases hl : r0.log = p2
  · simpa [hl] using hm r0 hr0 hl
  · simpa [hl] using h r0 hr0

theorem dates_ordered_delete (rowid : Int) (db : sqlite3) :
    dates_ordered (exec rowid .delete_pm db) := by
  intro r hr
  simp [exec] at hr

theorem dates_ordered_step (env : Env) (ag : Agents) (id : Int) (w : wdb_t) (op : Op)
    (h : dates_ordered w.db) (hk : keeps_order w op) :
    dates_ordered (apply_op env ag id w op).state.db := by
  cases op with
  | insert_pm event =>
    obtain ⟨h1, h2, h3⟩ := hk
    rcases wdb_insert_pm_state env w.db event with hs | hs
    · simpa [apply_op, hs] using h
    · simp only [apply_op, hs]
      rw [toInt32_of_in_range _ h1, toInt32_of_in_range _ h2]
      exact dates_ordered_insert _ _ _ _ _ _ _ h h3
  | update_pm event =>
    obtain ⟨h1, h2⟩ := hk
    rcases wdb_update_pm_state env w.db event with hs | hs
    · simpa [apply_op, hs] using h
    · simp only [apply_op, hs]
      rw [toInt32_of_in_range _ h1]
      exact dates_ordered_update _ _ _ _ h h2
  | rootcheck_save date_last log =>
    rcases wdb_rootcheck_save_state env w date_last log with hs | hs
    · simpa [apply_op, hs] using h
    · simp only [apply_op, hs]
      exact dates_ordered_insert _ _ _ _ _ _ _ h (le_refl _)
  | rootcheck_update date_last log =>
    obtain ⟨h1, h2⟩ := hk
    rcases wdb_rootcheck_update_state env w date_last log with hs | hs
    · simpa [apply_op, hs] using h
    · simp only [apply_op, hs]
      rw [toInt32_of_in_range _ h1]
      exact dates_ordered_update _ _ _ _ h h2
  | delete_pm =>
    rcases wdb_delete_pm_state env ag id w.db with hs | hs
    · simpa [apply_op, hs] using h
    · simp only [apply_op, hs]
      exact dates_ordered_delete _ _

/-- C6 as stated fails: from the empty store, a successful `wdb_insert_pm` of an
event with `date_first = 200`, `date_last = 100` leaves a row with
`date_first > date_last`; so does a successful `wdb_rootcheck_save` at 100
followed by a successful `wdb_rootcheck_update` of the same log at 50. -/
theorem dates_ordered_counterexample :
    dates_ordered ⟨[], 0, 0⟩ ∧
    (all_succeed ⟨fun _ => none, fun _ => none⟩ 0
        [(⟨0, 0, true, 0, SQLITE_DONE, 1⟩, .insert_pm ⟨200, 100, "x".toList⟩)]
        ⟨⟨[], 0, 0⟩, true⟩ ∧
      ¬ dates_ordered (run_ops ⟨fun _ => none, fun _ => none⟩ 0
        [(⟨0, 0, true, 0, SQLITE_DONE, 1⟩, .insert_pm ⟨200, 100, "x".toList⟩)]
        ⟨⟨[], 0, 0⟩, true⟩).db) ∧
    (all_succeed ⟨fun _ => none, fun _ => none⟩ 0
        [(⟨0, 0, true, 0, SQLITE_DONE, 1⟩, .rootcheck_save 100 "x".toList),
         (⟨0, 0, true, 0, SQLITE_DONE, 1⟩, .rootcheck_update 50 "x".toList)]
        ⟨⟨[], 0, 0⟩, true⟩ ∧
      ¬ dates_ordered (run_ops ⟨fun _ => none, fun _ => none⟩ 0
        [(⟨0, 0, true, 0, SQLITE_DONE, 1⟩, .rootcheck_save 100 "x".toList),
         (⟨0, 0, true, 0, SQLITE_DONE, 1⟩, .rootcheck_update 50 "x".toList)]
        ⟨⟨[], 0, 0⟩, true⟩).db) := by
  decide

/-- C6, amended: from a store whose rows all have `date_first <= date_last`,
every sequence of event-store operations in which each inserted event has
`date_first <= date_last` and each update gives a `date_last` not earlier than
the `date_first` of the rows it matches (timestamps of inserts and updates
within the range of the C `int`) leaves every row with
`date_first <= date_last`. Saves and deletes need no condition. -/
theorem dates_ordered_preserved (ag : Agents) (id : Int) (ops : List (Env × Op)) (w : wdb_t)
    (h0 : dates_ordered w.db) (hk : all_keep_order ag id ops w) :
    dates_ordered (run_ops ag id ops w).db := by
  induction ops generalizing w with
  | nil => exact h0
  | cons eo ops ih =>
    obtain ⟨env, op⟩ := eo
    exact ih _ (dates_ordered_step env ag id w op h0 hk.1) hk.2

/-- Witness of the amended C6: save, update to a later time, legacy insert,
update of the inserted row, then delete and save again. -/
theorem dates_ordered_preserved_witness :
    dates_ordered (run_ops ⟨fun _ => none, fun _ => none⟩ 0
      [(⟨0, 0, true, 0, SQLITE_DONE, 1⟩, .rootcheck_save 100 "x".toList),
       (⟨0, 0, true, 0, SQLITE_DONE, 1⟩, .rootcheck_update 200 "x".toList),
       (⟨0, 0, true, 0, SQLITE_DONE, 2⟩, .insert_pm ⟨50, 60, "y".toList⟩),
       (⟨0, 0, true, 0, SQLITE_DONE, 2⟩, .update_pm ⟨0, 70, "y".toList⟩),
       (⟨0, 0, true, 0, SQLITE_DONE, 2⟩, .delete_pm),
       (⟨0, 0, true, 0, SQLITE_DONE, 3⟩, .rootcheck_save 300 "z".toList)]
      ⟨⟨[], 0, 0⟩, false⟩).db :=
  dates_ordered_preserved ⟨fun _ => none, fun _ => none⟩ 0 _ ⟨⟨[], 0, 0⟩, false⟩
    (by decide) (by decide)

end WdbPm
